/-
Verification of the MemoryBridge record store (src/memorybridge.py).

We shallowly embed the storage core: the backing SQLite table `memories`
becomes a list of rows, each public operation of the `MemoryBridge` class
becomes a pure Lean function over that list (stateful operations return the
new table), and JSON-serializable Python values become the inductive type
`Json`.  The Python `json` module is an external collaborator whose
dumps/loads pair is the identity on this domain, so rows carry the decoded
value; `dumps` below models `json.dumps` where its output text matters
(the `value_json LIKE ?` comparison in `search`).
-/
import Mathlib

namespace MemoryBridge

/-- JSON-serializable Python values: None, bool, int, str, list, dict.
(Numbers are modelled as integers; floats are outside the model.) -/
inductive Json : Type where
  | null : Json
  | bool : Bool → Json
  | num : Int → Json
  | str : String → Json
  | arr : List Json → Json
  | obj : List (String × Json) → Json

/-- Python truthiness on the `Json` domain (`if metadata:` in `store`,
`if scope:` / `if owner:` in `search` / `list_all`). -/
def truthy : Json → Bool
  | .null => false
  | .bool b => b
  | .num n => n != 0
  | .str s => s ≠ ""
  | .arr xs => !xs.isEmpty
  | .obj fs => !fs.isEmpty

/-- Python `type(value).__name__` for a decoded JSON value, as stored in the
`value_type` column by `store`. -/
def typeName : Json → String
  | .null => "NoneType"
  | .bool _ => "bool"
  | .num _ => "int"
  | .str _ => "str"
  | .arr _ => "list"
  | .obj _ => "dict"

/-- Python `str.upper()` as applied to the agent name in `__init__`
(ASCII case mapping; agent names in this system are ASCII). -/
def upper (s : String) : String := ⟨s.data.map Char.toUpper⟩

/-- One escaped character of `json.dumps` output (default `ensure_ascii`):
quote and backslash get a backslash escape, common control characters get
their short escapes, other non-printable or non-ASCII characters get a
`\uXXXX` escape, everything else is kept. -/
def escapeChar (c : Char) : String :=
  if c = '"' then "\\\""
  else if c = '\\' then "\\\\"
  else if c = '\n' then "\\n"
  else if c = '\t' then "\\t"
  else if c = '\r' then "\\r"
  else if c.toNat < 0x20 ∨ c.toNat > 0x7e then
    "\\u" ++ (Nat.toDigits 16 (c.toNat % 0x10000)).asString
  else String.singleton c

/-- Serialization of a Python string by `json.dumps`. -/
def escapeString (s : String) : String :=
  "\"" ++ String.join (s.data.map escapeChar) ++ "\""

mutual
/-- Model of `json.dumps(value)`: the serialized text stored in the `value_json`
column (default separators `", "` and `": "`). -/
def dumps : Json → String
  | .null => "null"
  | .bool true => "true"
  | .bool false => "false"
  | .num n => toString n
  | .str s => escapeString s
  | .arr xs => "[" ++ dumpsList xs ++ "]"
  | .obj fs => "\x7b" ++ dumpsFields fs ++ "\x7d"

/-- Comma-separated serialization of a JSON array's elements. -/
def dumpsList : List Json → String
  | [] => ""
  | [x] => dumps x
  | x :: y :: rest => dumps x ++ ", " ++ dumpsList (y :: rest)

/-- Comma-separated serialization of a JSON object's fields. -/
def dumpsFields : List (String × Json) → String
  | [] => ""
  | [(k, v)] => escapeString k ++ ": " ++ dumps v
  | (k, v) :: f :: rest => escapeString k ++ ": " ++ dumps v ++ ", " ++ dumpsFields (f :: rest)
end

/-- SQLite `LIKE` case folding: ASCII letters compare case-insensitively,
all other characters compare exactly. -/
def likeFold (c : Char) : Char :=
  if 'A' ≤ c ∧ c ≤ 'Z' then Char.toLower c else c

/-- SQLite `LIKE` pattern matching on character lists: `%` matches any
(possibly empty) sequence — expressed as: the rest of the pattern matches
some suffix of the text — `_` matches any single character, and any other
pattern character matches case-insensitively (ASCII). -/
def likeMatch : List Char → List Char → Bool
  | [], t => t.isEmpty
  | '%' :: ps, t => (t.tails).any (fun s => likeMatch ps s)
  | '_' :: _, [] => false
  | '_' :: ps, _ :: ts => likeMatch ps ts
  | _ :: _, [] => false
  | p :: ps, c :: ts => (likeFold p = likeFold c) && likeMatch ps ts

/-- SQL `x LIKE pattern` for strings. -/
def strLike (pattern text : String) : Bool :=
  likeMatch pattern.data text.data

/-- Case-sensitive substring containment, the reading of "contains X as a
substring" in the specification (kept for comparison with the code's
`LIKE`-based matching; not used by any operation). -/
def containsSub (q s : String) : Bool :=
  (List.range (s.length + 1)).any (fun i => (s.data.drop i).take q.length = q.data)

/-- A row of the `memories` table.  `value` stands for the decoded content
of the `value_json` column (the column text is `dumps value`), and
`metadata` for the decoded `metadata_json` column (`none` = SQL NULL). -/
structure Row : Type where
  key : String
  value : Json
  value_type : String
  scope : String
  owner : String
  created : String
  updated : String
  access_count : Nat
  metadata : Option Json

/-- The `Memory` dataclass constructed by `search` / `list_all` from a row
(the `value_type` column is not part of it). -/
structure Memory : Type where
  key : String
  value : Json
  scope : String
  owner : String
  created : String
  updated : String
  access_count : Nat
  metadata : Option Json

/-- Building a `Memory` from a fetched row, as in the result loops of
`search` and `list_all` (`json.loads` of the value text gives back the
value; `metadata_json` is decoded when non-NULL, else `None`). -/
def Row.toMemory (r : Row) : Memory :=
  ⟨r.key, r.value, r.scope, r.owner, r.created, r.updated, r.access_count, r.metadata⟩

/-- The metadata actually persisted by `store`:
`metadata_json = json.dumps(metadata) if metadata else None`. -/
def storedMeta (metadata : Option Json) : Option Json :=
  match metadata with
  | some md => if truthy md then some md else none
  | none => none

/-- Result of `store`: either a raised `ValueError` (validation or
serialization failure) or a normal return of a Bool with the table state. -/
inductive StoreResult : Type where
  | valueError : String → StoreResult
  | ok : Bool → List Row → StoreResult

/-- The storage key derived by `store` (and by `delete` when the scope
option is explicit): prefix with the agent name iff scope is `agent`. -/
def storeKey (agent key scope : String) : String :=
  if scope = "agent" then agent ++ ":" ++ key else key

/-- Model of `MemoryBridge.store`.  Here `agent` is the bridge's `self.agent_name`
(already uppercased by `__init__`), `now` the `datetime.now().isoformat()`
timestamp, and `dbError` injects an `sqlite3.Error` during the write (the
transaction is then never committed, so the table is unchanged and the
method returns `False`).  On the `Json` domain `json.dumps` cannot fail,
so the serialization `ValueError` branch cannot fire.  The upsert
(`INSERT ... ON CONFLICT(key) DO UPDATE`) refreshes only `value_json`,
`value_type`, `updated` and `metadata_json` on an existing row. -/
def store (agent key : String) (value : Json) (scope : String)
    (metadata : Option Json) (now : String) (dbError : Bool)
    (tbl : List Row) : StoreResult :=
  if key = "" then .valueError "Key must be a non-empty string"
  else if ¬ (scope = "agent" ∨ scope = "team" ∨ scope = "global") then
    .valueError "Scope must be agent, team, or global"
  else
    let sk := storeKey agent key scope
    if dbError then .ok false tbl
    else if tbl.any (fun r => r.key = sk) then
      .ok true (tbl.map (fun r =>
        if r.key = sk then
          { r with value := value, value_type := typeName value,
                   updated := now, metadata := storedMeta metadata }
        else r))
    else
      .ok true (tbl ++ [⟨sk, value, typeName value, scope, agent, now, now, 0,
                         storedMeta metadata⟩])

/-- Model of `MemoryBridge.get`.  Returns the value (or the default) together with
the table after the access-count update.  The first probe uses the
agent-prefixed key when scope is `"agent"` or omitted; the second probe
(unprefixed key) runs only on a miss with scope omitted.  On a hit the
code runs `UPDATE memories SET access_count = access_count + 1 WHERE
key = ? OR key = ?` with both candidate keys. -/
def get (agent key : String) (scope : Option String) (dflt : Json)
    (tbl : List Row) : Json × List Row :=
  let prefKey := if scope = some "agent" ∨ scope = none then agent ++ ":" ++ key else key
  let row0 := tbl.find? (fun r => r.key = prefKey)
  let row := if row0.isNone ∧ scope = none then tbl.find? (fun r => r.key = key) else row0
  match row with
  | some r =>
      (r.value,
       tbl.map (fun e =>
         if e.key = prefKey ∨ e.key = key then
           { e with access_count := e.access_count + 1 }
         else e))
  | none => (dflt, tbl)

/-- Model of `MemoryBridge.delete`.  The key is agent-prefixed only when scope is
explicitly `"agent"`; returns `cursor.rowcount > 0`. -/
def delete (agent key : String) (scope : Option String)
    (tbl : List Row) : Bool × List Row :=
  let dk := if scope = some "agent" then agent ++ ":" ++ key else key
  (tbl.any (fun r => r.key = dk), tbl.filter (fun r => ¬ r.key = dk))

/-- The `WHERE (key LIKE ? OR value_json LIKE ?)` condition of `search`
with parameters `'%' + query + '%'`. -/
def rowMatches (query : String) (r : Row) : Bool :=
  strLike ("%" ++ query ++ "%") r.key || strLike ("%" ++ query ++ "%") (dumps r.value)

/-- An optional equality filter appended to the SQL only when the Python
value is truthy (`if scope:` / `if owner:`), as in `search` and
`list_all`. -/
def optFilter (flt : Option String) (field : String) : Bool :=
  match flt with
  | some s => if s = "" then true else field = s
  | none => true

/-- memcmp-style lexicographic order on code points: SQLite's BINARY
collation compares UTF-8 bytes, which coincides with code-point order. -/
def charListLe : List Char → List Char → Bool
  | [], _ => true
  | _ :: _, [] => false
  | a :: as, b :: bs =>
      if a.toNat < b.toNat then true
      else if b.toNat < a.toNat then false
      else charListLe as bs

/-- Text comparison used by `ORDER BY updated` (BINARY collation). -/
def strLe (a b : String) : Bool := charListLe a.data b.data

/-- Row comparison of `ORDER BY updated DESC`: most recent first. -/
def updatedGE (a b : Row) : Prop := strLe b.updated a.updated = true

/-- The same comparison on the returned `Memory` objects. -/
def Memory.updatedGE (a b : Memory) : Prop := strLe b.updated a.updated = true

instance : DecidableRel updatedGE := fun _ _ =>
  inferInstanceAs (Decidable (_ = true))

theorem charListLe_total : ∀ a b, charListLe a b = true ∨ charListLe b a = true := by
  intro a
  induction a with
  | nil => intro b; exact Or.inl rfl
  | cons x xs ih =>
    intro b
    match b with
    | [] => exact Or.inr rfl
    | y :: ys =>
      by_cases h1 : x.toNat < y.toNat
      · left; simp [charListLe, h1]
      · by_cases h2 : y.toNat < x.toNat
        · right; simp [charListLe, h1, h2]
        · rcases ih ys with h | h
          · left; simp [charListLe, h1, h2, h]
          · right; simp [charListLe, h1, h2, h]

theorem charListLe_trans :
    ∀ a b c, charListLe a b = true → charListLe b c = true →
      charListLe a c = true := by
  intro a
  induction a with
  | nil => intro b c _ _; rfl
  | cons x xs ih =>
    intro b c hab hbc
    match b, c with
    | [], _ => simp [charListLe] at hab
    | _ :: _, [] => simp [charListLe] at hbc
    | y :: ys, z :: zs =>
      simp only [charListLe] at hab hbc ⊢
      rcases Nat.lt_trichotomy x.toNat y.toNat with hxy | hxy | hxy
      · rcases Nat.lt_trichotomy y.toNat z.toNat with hyz | hyz | hyz
        · have hxz : x.toNat < z.toNat := by omega
          simp [hxz]
        · have hxz : x.toNat < z.toNat := by omega
          simp [hxz]
        · have h3 : ¬ y.toNat < z.toNat := by omega
          simp [h3, hyz] at hbc
      · rcases Nat.lt_trichotomy y.toNat z.toNat with hyz | hyz | hyz
        · have hxz : x.toNat < z.toNat := by omega
          simp [hxz]
        · have h1 : ¬ x.toNat < y.toNat := by omega
          have h2 : ¬ y.toNat < x.toNat := by omega
          have h3 : ¬ y.toNat < z.toNat := by omega
          have h4 : ¬ z.toNat < y.toNat := by omega
          have hxz : ¬ x.toNat < z.toNat := by omega
          have hzx : ¬ z.toNat < x.toNat := by omega
          simp only [h1, h2, if_false, if_true] at hab
          simp only [h3, h4, if_false, if_true] at hbc
          simp only [hxz, hzx, if_false, if_true]
          exact ih ys zs (by simpa using hab) (by simpa using hbc)
        · have h3 : ¬ y.toNat < z.toNat := by omega
          simp [h3, hyz] at hbc
      · have h1 : ¬ x.toNat < y.toNat := by omega
        simp [h1, hxy] at hab

instance : IsTotal Row updatedGE :=
  ⟨fun a b => charListLe_total b.updated.data a.updated.data⟩

instance : IsTrans Row updatedGE :=
  ⟨fun _ _ _ hab hbc => charListLe_trans _ _ _ hbc hab⟩

/-- Model of `MemoryBridge.search`: filter by the `LIKE` condition and the optional
scope filter, order by `updated` descending, build `Memory` objects.
It runs only `SELECT` statements, so it is a pure query: the table is not
an output. -/
def search (query : String) (scope : Option String) (tbl : List Row) :
    List Memory :=
  (List.insertionSort updatedGE
    (tbl.filter (fun r => rowMatches query r && optFilter scope r.scope))).map
    Row.toMemory

/-- Model of `MemoryBridge.list_all`: optional truthy scope and owner filters,
ordered by `updated` descending; a pure query like `search`. -/
def list_all (scope owner : Option String) (tbl : List Row) : List Memory :=
  (List.insertionSort updatedGE
    (tbl.filter (fun r => optFilter scope r.scope && optFilter owner r.owner))).map
    Row.toMemory

/-! ### Helper lemmas about the table operations -/

theorem find?_append_none {α : Type} {p : α → Bool} :
    ∀ l1 : List α, l1.find? p = none → ∀ l2 : List α,
      (l1 ++ l2).find? p = l2.find? p := by
  intro l1
  induction l1 with
  | nil => intro _ l2; simp
  | cons a as ih =>
    intro h l2
    rw [List.find?_cons] at h
    cases hpa : p a with
    | true => rw [hpa] at h; exact absurd h (by simp)
    | false =>
      rw [hpa] at h
      rw [List.cons_append, List.find?_cons, hpa]
      exact ih h l2

theorem find?_map_update (sk : String) (f : Row → Row)
    (hf : ∀ x, (f x).key = x.key) :
    ∀ (tbl : List Row) (r : Row),
      tbl.find? (fun x => x.key = sk) = some r →
      (tbl.map (fun x => if x.key = sk then f x else x)).find?
        (fun x => x.key = sk) = some (f r) := by
  intro tbl
  induction tbl with
  | nil => intro r h; simp at h
  | cons a as ih =>
    intro r h
    by_cases ha : a.key = sk
    · rw [List.find?_cons_of_pos _ (by simpa using ha)] at h
      obtain rfl : a = r := by injection h
      rw [List.map_cons, if_pos ha]
      exact List.find?_cons_of_pos _ (by simpa using (hf a).trans ha)
    · rw [List.find?_cons_of_neg _ (by simpa using ha)] at h
      rw [List.map_cons, if_neg ha]
      rw [List.find?_cons_of_neg _ (by simpa [hf] using ha)]
      exact ih r h

/-- When the derived storage key is absent, `store` appends a fresh row
built from the arguments (the `INSERT` arm of the upsert). -/
theorem store_fresh (agent key : String) (value : Json) (scope : String)
    (metadata : Option Json) (now : String) (tbl : List Row)
    (hk : key ≠ "")
    (hs : scope = "agent" ∨ scope = "team" ∨ scope = "global")
    (hfresh : tbl.find? (fun x => x.key = storeKey agent key scope) = none) :
    store agent key value scope metadata now false tbl =
      .ok true (tbl ++ [⟨storeKey agent key scope, value, typeName value, scope,
                         agent, now, now, 0, storedMeta metadata⟩]) := by
  have hany : (tbl.any fun r => r.key = storeKey agent key scope) = false := by
    rw [List.any_eq_false]
    intro r hr
    simpa using List.find?_eq_none.mp hfresh r hr
  rcases hs with rfl | rfl | rfl <;> simp [store, hk, hany]

/-- When the derived storage key is present, `store` maps the update over
the table (the `ON CONFLICT(key) DO UPDATE` arm), and the row found at
that key afterwards is the old row with `value_json`, `value_type`,
`updated` and `metadata_json` refreshed. -/
theorem store_found (agent key : String) (value : Json) (scope : String)
    (metadata : Option Json) (now : String) (tbl : List Row) (r : Row)
    (hk : key ≠ "")
    (hs : scope = "agent" ∨ scope = "team" ∨ scope = "global")
    (hfind : tbl.find? (fun x => x.key = storeKey agent key scope) = some r) :
    store agent key value scope metadata now false tbl =
      .ok true (tbl.map (fun x =>
        if x.key = storeKey agent key scope then
          { x with value := value, value_type := typeName value,
                   updated := now, metadata := storedMeta metadata }
        else x)) ∧
    (tbl.map (fun x =>
        if x.key = storeKey agent key scope then
          { x with value := value, value_type := typeName value,
                   updated := now, metadata := storedMeta metadata }
        else x)).find? (fun x => x.key = storeKey agent key scope) =
      some { r with value := value, value_type := typeName value,
                    updated := now, metadata := storedMeta metadata } := by
  have hp := List.find?_some hfind
  have hm := List.mem_of_find?_eq_some hfind
  have hany : (tbl.any fun x => x.key = storeKey agent key scope) = true :=
    List.any_eq_true.mpr ⟨r, hm, hp⟩
  constructor
  · rcases hs with rfl | rfl | rfl <;> simp [store, hk, hany]
  · exact find?_map_update (storeKey agent key scope)
      (fun x => { x with value := value, value_type := typeName value,
                         updated := now, metadata := storedMeta metadata })
      (fun _ => rfl) tbl r hfind

/-- Membership in a `search` result: exactly the rows passing the `LIKE`
condition and the optional scope filter, converted to `Memory`. -/
theorem mem_search (query : String) (scope : Option String) (tbl : List Row)
    (m : Memory) :
    m ∈ search query scope tbl ↔
      ∃ r, r ∈ tbl ∧ Row.toMemory r = m ∧
        rowMatches query r = true ∧ optFilter scope r.scope = true := by
  unfold search
  rw [List.mem_map]
  constructor
  · rintro ⟨r, hr, hm⟩
    have hr' := (List.perm_insertionSort updatedGE _).mem_iff.mp hr
    rw [List.mem_filter, Bool.and_eq_true] at hr'
    exact ⟨r, hr'.1, hm, hr'.2.1, hr'.2.2⟩
  · rintro ⟨r, hr, hm, h1, h2⟩
    refine ⟨r, ?_, hm⟩
    refine (List.perm_insertionSort updatedGE _).mem_iff.mpr ?_
    rw [List.mem_filter, Bool.and_eq_true]
    exact ⟨hr, h1, h2⟩

/-- A `search` result is ordered by `updated` descending. -/
theorem search_sorted (query : String) (scope : Option String) (tbl : List Row) :
    List.Pairwise Memory.updatedGE (search query scope tbl) := by
  unfold search
  refine List.Pairwise.map _ (fun a b h => h) ?_
  exact List.sorted_insertionSort updatedGE _

/-- Membership in a `list_all` result. -/
theorem mem_list_all (scope owner : Option String) (tbl : List Row)
    (m : Memory) :
    m ∈ list_all scope owner tbl ↔
      ∃ r, r ∈ tbl ∧ Row.toMemory r = m ∧
        optFilter scope r.scope = true ∧ optFilter owner r.owner = true := by
  unfold list_all
  rw [List.mem_map]
  constructor
  · rintro ⟨r, hr, hm⟩
    have hr' := (List.perm_insertionSort updatedGE _).mem_iff.mp hr
    rw [List.mem_filter, Bool.and_eq_true] at hr'
    exact ⟨r, hr'.1, hm, hr'.2.1, hr'.2.2⟩
  · rintro ⟨r, hr, hm, h1, h2⟩
    refine ⟨r, ?_, hm⟩
    refine (List.perm_insertionSort updatedGE _).mem_iff.mpr ?_
    rw [List.mem_filter, Bool.and_eq_true]
    exact ⟨hr, h1, h2⟩

/-- The agent-prefixed key is always distinct from the plain key (it is
strictly longer). -/
theorem agentKey_ne (agent key : String) : agent ++ ":" ++ key ≠ key := by
  intro h
  have hlen := congrArg String.length h
  rw [String.length_append, String.length_append] at hlen
  have hone : (":").length = 1 := rfl
  rw [hone] at hlen
  omega

/-! ### Claim theorems -/

/-- C1: `get` resolves probes in this order: with scope `"agent"` or scope
omitted it first probes the agent-prefixed storage key; only when that
probe misses and scope was omitted does it fall back to the unprefixed
key; with explicit scope `"team"` or `"global"` it probes the unprefixed
key only; in particular explicit scope `"agent"` never falls back to the
unprefixed key. -/
theorem C1_get_resolution_order (agent key : String) (dflt : Json)
    (tbl : List Row) :
    ((get agent key (some "agent") dflt tbl).1 =
      (match tbl.find? (fun r => r.key = agent ++ ":" ++ key) with
       | some r => r.value
       | none => dflt)) ∧
    ((get agent key none dflt tbl).1 =
      (match tbl.find? (fun r => r.key = agent ++ ":" ++ key) with
       | some r => r.value
       | none =>
           match tbl.find? (fun r => r.key = key) with
           | some r => r.value
           | none => dflt)) ∧
    (∀ s : String, s = "team" ∨ s = "global" →
      (get agent key (some s) dflt tbl).1 =
        (match tbl.find? (fun r => r.key = key) with
         | some r => r.value
         | none => dflt)) := by
  refine ⟨?_, ?_, ?_⟩
  · cases h : tbl.find? (fun r => r.key = agent ++ ":" ++ key) with
    | some r => simp [get, h]
    | none => simp [get, h]
  · cases h : tbl.find? (fun r => r.key = agent ++ ":" ++ key) with
    | some r => simp [get, h]
    | none =>
      cases h2 : tbl.find? (fun r => r.key = key) with
      | some r => simp [get, h, h2]
      | none => simp [get, h, h2]
  · rintro s (rfl | rfl) <;>
    · cases h : tbl.find? (fun r => r.key = key) with
      | some r => simp [get, h]
      | none => simp [get, h]

/-- Witness for C1 at a concrete input: with explicit scope `"team"`, the
entry stored under the plain key is returned. -/
theorem C1_witness :
    (get "FORGE" "status" (some "team") Json.null
      [⟨"status", Json.str "ok", "str", "team", "ATLAS", "T1", "T1", 0, none⟩]).1 =
      Json.str "ok" := by
  have h := (C1_get_resolution_order "FORGE" "status" Json.null
    [⟨"status", Json.str "ok", "str", "team", "ATLAS", "T1", "T1", 0, none⟩]).2.2
    "team" (Or.inl rfl)
  exact h.trans rfl

/-- C2 (code-bug exhibit): with both the agent-prefixed key `ATLAS:k` and
the unprefixed key `k` present, `get` with scope omitted resolves to the
agent-prefixed entry (value `"a"`), yet the access-count statement
`UPDATE memories SET access_count = access_count + 1 WHERE key = ? OR
key = ?` increments BOTH rows — the unmatched entry `k` is incremented
too, contrary to "increments no other entry's access_count". -/
theorem C2_get_double_increment :
    get "ATLAS" "k" none Json.null
      [⟨"ATLAS:k", Json.str "a", "str", "agent", "ATLAS", "T1", "T1", 0, none⟩,
       ⟨"k", Json.str "b", "str", "team", "ATLAS", "T1", "T1", 0, none⟩] =
    (Json.str "a",
     [⟨"ATLAS:k", Json.str "a", "str", "agent", "ATLAS", "T1", "T1", 1, none⟩,
      ⟨"k", Json.str "b", "str", "team", "ATLAS", "T1", "T1", 1, none⟩]) := rfl

/-- C3 counterexample: FORGE overwrites ATLAS's team entry, but the upsert
clause does not refresh `owner`; it stays `"ATLAS"`, not the calling
agent's uppercased identity `upper "Forge" = "FORGE"`. -/
theorem C3_counterexample :
    store (upper "Forge") "k" (Json.str "v2") "team" none "T2" false
      [⟨"k", Json.str "v1", "str", "team", "ATLAS", "T1", "T1", 0, none⟩] =
    .ok true [⟨"k", Json.str "v2", "str", "team", "ATLAS", "T1", "T2", 0, none⟩] ∧
    upper "Forge" ≠ "ATLAS" := ⟨rfl, by decide⟩

/-- C3 (amended): on an overwrite, `owner` is preserved from the existing
entry — it records the agent that created the entry, not the agent that
performed the most recent write. -/
theorem C3_owner_preserved_on_overwrite (agent key : String) (value : Json)
    (scope : String) (metadata : Option Json) (now : String)
    (tbl : List Row) (r : Row)
    (hk : key ≠ "")
    (hs : scope = "agent" ∨ scope = "team" ∨ scope = "global")
    (hfind : tbl.find? (fun x => x.key = storeKey agent key scope) = some r) :
    ∃ tbl', store agent key value scope metadata now false tbl = .ok true tbl' ∧
      ∃ r', tbl'.find? (fun x => x.key = storeKey agent key scope) = some r' ∧
        r'.owner = r.owner := by
  obtain ⟨h1, h2⟩ := store_found agent key value scope metadata now tbl r hk hs hfind
  exact ⟨_, h1, _, h2, rfl⟩

/-- Witness for the amended C3 at a concrete overwrite: the owner stays
`"ATLAS"` although `"FORGE"` performed the write. -/
theorem C3_witness :
    ∃ tbl', store "FORGE" "k" (Json.str "v2") "team" none "T2" false
        [⟨"k", Json.str "v1", "str", "team", "ATLAS", "T1", "T1", 0, none⟩] =
      .ok true tbl' ∧
      ∃ r', tbl'.find? (fun x => x.key = storeKey "FORGE" "k" "team") = some r' ∧
        r'.owner = "ATLAS" := by
  obtain ⟨tbl', h1, r', h2, h3⟩ :=
    C3_owner_preserved_on_overwrite "FORGE" "k" (Json.str "v2") "team" none "T2"
      [⟨"k", Json.str "v1", "str", "team", "ATLAS", "T1", "T1", 0, none⟩]
      ⟨"k", Json.str "v1", "str", "team", "ATLAS", "T1", "T1", 0, none⟩
      (by decide) (Or.inr (Or.inl rfl)) (by rfl)
  exact ⟨tbl', h1, r', h2, h3.trans rfl⟩

/-- C4 counterexample: key `k` stored under scope `team` and then under
scope `global` derives the SAME storage key `k`; the second store
overwrites the first entry in place (without even updating the stored
`scope` field), so the two stores do not produce two distinct independent
entries. -/
theorem C4_counterexample :
    storeKey "ATLAS" "k" "team" = storeKey "ATLAS" "k" "global" ∧
    store "ATLAS" "k" (Json.str "v1") "team" none "T1" false [] =
      .ok true [⟨"k", Json.str "v1", "str", "team", "ATLAS", "T1", "T1", 0, none⟩] ∧
    store "ATLAS" "k" (Json.str "v2") "global" none "T2" false
        [⟨"k", Json.str "v1", "str", "team", "ATLAS", "T1", "T1", 0, none⟩] =
      .ok true [⟨"k", Json.str "v2", "str", "team", "ATLAS", "T1", "T2", 0, none⟩] :=
  ⟨rfl, rfl, rfl⟩

/-- C4 (amended): the distinct-storage-key property holds exactly for the
scope pairs in which one scope is `"agent"`: storing `k` under `"agent"`
and under `"team"` or `"global"` derives different storage keys and leaves
two distinct, independent entries; `"team"` and `"global"` instead share
the storage key `k` (see the counterexample). -/
theorem C4_agent_vs_shared_distinct (agent key : String) (s2 : String)
    (v1 v2 : Json) (t1 t2 : String)
    (hk : key ≠ "")
    (hs2 : s2 = "team" ∨ s2 = "global") :
    storeKey agent key "agent" ≠ storeKey agent key s2 ∧
    ∃ tbl1 tbl2,
      store agent key v1 "agent" none t1 false [] = .ok true tbl1 ∧
      store agent key v2 s2 none t2 false tbl1 = .ok true tbl2 ∧
      (∃ ra, tbl2.find? (fun r => r.key = storeKey agent key "agent") = some ra ∧
        ra.value = v1 ∧ ra.scope = "agent") ∧
      (∃ rb, tbl2.find? (fun r => r.key = storeKey agent key s2) = some rb ∧
        rb.value = v2 ∧ rb.scope = s2) := by
  have hA : storeKey agent key "agent" = agent ++ ":" ++ key := by simp [storeKey]
  have hS : storeKey agent key s2 = key := by
    rcases hs2 with rfl | rfl <;> simp [storeKey]
  have hne := agentKey_ne agent key
  refine ⟨?_, ?_⟩
  · rw [hA, hS]; exact hne
  · have h1 := store_fresh agent key v1 "agent" none t1 [] hk (Or.inl rfl) rfl
    rw [hA] at h1
    have hfresh2 : List.find?
        (fun x : Row => x.key = storeKey agent key s2)
        [⟨agent ++ ":" ++ key, v1, typeName v1, "agent", agent, t1, t1, 0,
          storedMeta none⟩] = none := by
      rw [hS, List.find?_cons_of_neg _ (by simpa using hne)]
      rfl
    have h2 := store_fresh agent key v2 s2 none t2
      [⟨agent ++ ":" ++ key, v1, typeName v1, "agent", agent, t1, t1, 0,
        storedMeta none⟩] hk (Or.inr hs2) hfresh2
    refine ⟨_, _, h1, h2,
      ⟨⟨agent ++ ":" ++ key, v1, typeName v1, "agent", agent, t1, t1, 0,
        storedMeta none⟩, ?_, rfl, rfl⟩,
      ⟨⟨storeKey agent key s2, v2, typeName v2, s2, agent, t2, t2, 0,
        storedMeta none⟩, ?_, rfl, rfl⟩⟩
    · rw [hA, List.singleton_append]
      rw [List.find?_cons_of_pos _ (by simp)]
    · rw [hS, List.singleton_append]
      rw [List.find?_cons_of_neg _ (by simpa using hne)]
      rw [List.find?_cons_of_pos _ (by simp)]

/-- Witness for the amended C4 at a concrete input: agent vs team scope
for the same logical key. -/
theorem C4_witness :
    storeKey "ATLAS" "k" "agent" ≠ storeKey "ATLAS" "k" "team" ∧
    ∃ tbl1 tbl2,
      store "ATLAS" "k" (Json.str "v1") "agent" none "T1" false [] = .ok true tbl1 ∧
      store "ATLAS" "k" (Json.str "v2") "team" none "T2" false tbl1 = .ok true tbl2 ∧
      (∃ ra, tbl2.find? (fun r => r.key = storeKey "ATLAS" "k" "agent") = some ra ∧
        ra.value = Json.str "v1" ∧ ra.scope = "agent") ∧
      (∃ rb, tbl2.find? (fun r => r.key = storeKey "ATLAS" "k" "team") = some rb ∧
        rb.value = Json.str "v2" ∧ rb.scope = "team") :=
  C4_agent_vs_shared_distinct "ATLAS" "k" "team" (Json.str "v1") (Json.str "v2")
    "T1" "T2" (by decide) (Or.inl rfl)

/-- C5: storing to an already-present storage key keeps `created` and
`access_count` unchanged, sets `updated` to the new write's timestamp
(later-or-equal to the previous `updated` whenever the clock reading is),
and replaces `value`, `value_type` and `metadata`. -/
theorem C5_upsert_frame (agent key : String) (value : Json) (scope : String)
    (metadata : Option Json) (now : String) (tbl : List Row) (r : Row)
    (hk : key ≠ "")
    (hs : scope = "agent" ∨ scope = "team" ∨ scope = "global")
    (hfind : tbl.find? (fun x => x.key = storeKey agent key scope) = some r) :
    ∃ tbl', store agent key value scope metadata now false tbl = .ok true tbl' ∧
      ∃ r', tbl'.find? (fun x => x.key = storeKey agent key scope) = some r' ∧
        r'.created = r.created ∧
        r'.access_count = r.access_count ∧
        r'.updated = now ∧
        (strLe r.updated now = true → strLe r.updated r'.updated = true) ∧
        r'.value = value ∧
        r'.value_type = typeName value ∧
        r'.metadata = storedMeta metadata := by
  obtain ⟨h1, h2⟩ := store_found agent key value scope metadata now tbl r hk hs hfind
  exact ⟨_, h1, _, h2, rfl, rfl, rfl, fun h => h, rfl, rfl, rfl⟩

/-- Witness for C5 at a concrete overwrite: `created` and `access_count`
survive, `updated` becomes the new timestamp, the value is replaced. -/
theorem C5_witness :
    ∃ tbl', store "ATLAS" "counter" (Json.num 2) "team" none "T2" false
        [⟨"counter", Json.num 1, "int", "team", "ATLAS", "T1", "T1", 5, none⟩] =
      .ok true tbl' ∧
      ∃ r', tbl'.find? (fun x => x.key = storeKey "ATLAS" "counter" "team") = some r' ∧
        r'.created = "T1" ∧ r'.access_count = 5 ∧ r'.updated = "T2" ∧
        strLe "T1" r'.updated = true ∧ r'.value = Json.num 2 := by
  obtain ⟨tbl', h1, r', h2, hc, ha, hu, hmono, hv, _, _⟩ :=
    C5_upsert_frame "ATLAS" "counter" (Json.num 2) "team" none "T2"
      [⟨"counter", Json.num 1, "int", "team", "ATLAS", "T1", "T1", 5, none⟩]
      ⟨"counter", Json.num 1, "int", "team", "ATLAS", "T1", "T1", 5, none⟩
      (by decide) (Or.inr (Or.inl rfl)) (by rfl)
  exact ⟨tbl', h1, r', h2, hc.trans rfl, ha.trans rfl, hu, hmono (by decide), hv⟩

/-- C6 counterexample: SQLite `LIKE` compares ASCII letters
case-insensitively, so `search "abc"` returns the entry whose storage key
is `"ABC"` although `"abc"` is not a substring of the storage key `"ABC"`
nor of the serialized value text (`dumps (Json.str "v")`). -/
theorem C6_counterexample :
    search "abc" none
      [⟨"ABC", Json.str "v", "str", "team", "ATLAS", "T1", "T1", 0, none⟩] =
      [⟨"ABC", Json.str "v", "team", "ATLAS", "T1", "T1", 0, none⟩] ∧
    containsSub "abc" "ABC" = false ∧
    containsSub "abc" (dumps (Json.str "v")) = false :=
  ⟨rfl, by decide, by decide⟩

/-- C6 (amended): `search X s` returns exactly the entries whose storage
key or serialized value text matches the SQLite pattern `%X%` — substring
containment up to ASCII case folding, with `%` and `_` in `X` acting as
wildcards — restricted, when the scope filter is given and non-empty, to
entries whose `scope` equals it exactly, and ordered by `updated`
descending.  `search` runs only `SELECT` statements, so it modifies no
entry: in the embedding it is a pure function of the table. -/
theorem C6_search_exact (query : String) (scope : Option String)
    (tbl : List Row) :
    (∀ m : Memory, m ∈ search query scope tbl ↔
      ∃ r, r ∈ tbl ∧ Row.toMemory r = m ∧
        (strLike ("%" ++ query ++ "%") r.key = true ∨
         strLike ("%" ++ query ++ "%") (dumps r.value) = true) ∧
        optFilter scope r.scope = true) ∧
    List.Pairwise Memory.updatedGE (search query scope tbl) := by
  refine ⟨fun m => ?_, search_sorted query scope tbl⟩
  rw [mem_search]
  constructor
  · rintro ⟨r, h1, h2, h3, h4⟩
    exact ⟨r, h1, h2, by simpa [rowMatches] using h3, h4⟩
  · rintro ⟨r, h1, h2, h3, h4⟩
    exact ⟨r, h1, h2, by simpa [rowMatches] using h3, h4⟩

/-- Witness for the amended C6 at a concrete input: the row matching on
its storage key is a member of the result. -/
theorem C6_witness :
    (⟨"ABC", Json.str "v", "team", "ATLAS", "T1", "T1", 0, none⟩ : Memory) ∈
      search "B" none
        [⟨"ABC", Json.str "v", "str", "team", "ATLAS", "T1", "T1", 0, none⟩] := by
  refine ((C6_search_exact "B" none _).1 _).mpr ?_
  exact ⟨⟨"ABC", Json.str "v", "str", "team", "ATLAS", "T1", "T1", 0, none⟩,
    by simp, rfl, Or.inl (by decide), rfl⟩

/-- C7 counterexample: the unscoped-`get` variant of the round trip fails
when an entry at the caller's agent-prefixed key shadows the fresh store.
The table has no entry at the derived storage key `"k"`, yet after
`store("k", "v", "team")`, unscoped `get("k")` returns the pre-existing
`"ATLAS:k"` entry's value `"w"`, not `"v"`. -/
theorem C7_counterexample :
    store "ATLAS" "k" (Json.str "v") "team" none "T2" false
      [⟨"ATLAS:k", Json.str "w", "str", "agent", "ATLAS", "T1", "T1", 0, none⟩] =
      .ok true
        [⟨"ATLAS:k", Json.str "w", "str", "agent", "ATLAS", "T1", "T1", 0, none⟩,
         ⟨"k", Json.str "v", "str", "team", "ATLAS", "T2", "T2", 0, none⟩] ∧
    (get "ATLAS" "k" none Json.null
      [⟨"ATLAS:k", Json.str "w", "str", "agent", "ATLAS", "T1", "T1", 0, none⟩,
       ⟨"k", Json.str "v", "str", "team", "ATLAS", "T2", "T2", 0, none⟩]).1 =
      Json.str "w" ∧
    Json.str "w" ≠ Json.str "v" := ⟨rfl, rfl, by simp⟩

/-- C7 (amended round trip): when the derived storage key is absent,
`store(k, v, s)` followed by `get(k, s)` returns `v`; the unscoped
`get(k)` variant for `s ≠ "agent"` also returns `v` provided additionally
that no entry sits at the caller's agent-prefixed key (which would shadow
the unprefixed probe). -/
theorem C7_roundtrip (agent key : String) (v : Json) (s : String)
    (metadata : Option Json) (now : String) (dflt : Json) (tbl : List Row)
    (hk : key ≠ "")
    (hs : s = "agent" ∨ s = "team" ∨ s = "global")
    (hfresh : tbl.find? (fun r => r.key = storeKey agent key s) = none) :
    ∃ tbl', store agent key v s metadata now false tbl = .ok true tbl' ∧
      (get agent key (some s) dflt tbl').1 = v ∧
      (s ≠ "agent" →
        tbl.find? (fun r => r.key = agent ++ ":" ++ key) = none →
        (get agent key none dflt tbl').1 = v) := by
  have hne := agentKey_ne agent key
  have h1 := store_fresh agent key v s metadata now tbl hk hs hfresh
  refine ⟨_, h1, ?_, ?_⟩
  · rcases hs with rfl | rfl | rfl
    · simp [storeKey] at hfresh
      have hnone : List.find? (fun r : Row => r.key = agent ++ ":" ++ key) tbl = none :=
        List.find?_eq_none.mpr (by simpa using hfresh)
      simp [get, storeKey, hnone, Option.or]
    · simp [storeKey] at hfresh
      have hnone : List.find? (fun r : Row => r.key = key) tbl = none :=
        List.find?_eq_none.mpr (by simpa using hfresh)
      simp [get, storeKey, hnone, Option.or]
    · simp [storeKey] at hfresh
      have hnone : List.find? (fun r : Row => r.key = key) tbl = none :=
        List.find?_eq_none.mpr (by simpa using hfresh)
      simp [get, storeKey, hnone, Option.or]
  · intro hsne hpre
    have hkey : storeKey agent key s = key := by
      rcases hs with rfl | rfl | rfl
      · exact absurd rfl hsne
      · simp [storeKey]
      · simp [storeKey]
    rw [hkey] at hfresh
    have hxk : ∀ x ∈ tbl, ¬ x.key = agent ++ ":" ++ key := by
      intro x hx
      simpa using List.find?_eq_none.mp hpre x hx
    have hkne : ¬ key = agent ++ ":" ++ key := Ne.symm hne
    simp [get, hkey, hfresh, hxk, hkne, hpre]

/-- Witness for the amended C7 at a concrete input: a team entry round
trips both through scoped and unscoped `get`. -/
theorem C7_witness :
    ∃ tbl', store "FORGE" "status" (Json.str "ok") "team" none "T1" false [] =
      .ok true tbl' ∧
      (get "FORGE" "status" (some "team") Json.null tbl').1 = Json.str "ok" ∧
      (get "FORGE" "status" none Json.null tbl').1 = Json.str "ok" := by
  obtain ⟨tbl', h1, h2, h3⟩ :=
    C7_roundtrip "FORGE" "status" (Json.str "ok") "team" none "T1" Json.null []
      (by decide) (Or.inr (Or.inl rfl)) rfl
  exact ⟨tbl', h1, h2, h3 (by decide) rfl⟩

/-- C8: `delete` prefixes the key with the agent identity iff scope is
explicitly `"agent"` (no dual-probe fallback); it returns `true` iff an
entry with that storage key existed, removes exactly the rows with that
storage key, and on a missing key returns `false` with the table unchanged
(the operation is total: a missing key is not an error). -/
theorem C8_delete_exact (agent key : String) (scope : Option String)
    (tbl : List Row) :
    ((delete agent key scope tbl).1 = true ↔
      ∃ r ∈ tbl,
        r.key = (if scope = some "agent" then agent ++ ":" ++ key else key)) ∧
    (∀ r : Row, r ∈ (delete agent key scope tbl).2 ↔
      r ∈ tbl ∧
        ¬ r.key = (if scope = some "agent" then agent ++ ":" ++ key else key)) ∧
    ((∀ r ∈ tbl,
        ¬ r.key = (if scope = some "agent" then agent ++ ":" ++ key else key)) →
      delete agent key scope tbl = (false, tbl)) := by
  refine ⟨?_, ?_, ?_⟩
  · simp [delete, List.any_eq_true]
  · intro r
    simp [delete, List.mem_filter]
  · intro h
    have h1 : (tbl.any fun r =>
        r.key = (if scope = some "agent" then agent ++ ":" ++ key else key)) =
        false := by
      rw [List.any_eq_false]
      intro r hr
      simpa using h r hr
    simpa [delete, h1] using h

/-- Witness for C8 at concrete inputs: deleting an existing team entry
returns `true`; deleting a missing key returns `false` and leaves the
table unchanged. -/
theorem C8_witness :
    ((delete "ATLAS" "temp" (some "team")
        [⟨"temp", Json.str "x", "str", "team", "ATLAS", "T1", "T1", 0, none⟩]).1 =
      true) ∧
    delete "ATLAS" "missing" none
        [⟨"temp", Json.str "x", "str", "team", "ATLAS", "T1", "T1", 0, none⟩] =
      (false, [⟨"temp", Json.str "x", "str", "team", "ATLAS", "T1", "T1", 0, none⟩]) := by
  constructor
  · exact ((C8_delete_exact "ATLAS" "temp" (some "team") _).1).mpr
      ⟨⟨"temp", Json.str "x", "str", "team", "ATLAS", "T1", "T1", 0, none⟩,
        by simp, by decide⟩
  · exact (C8_delete_exact "ATLAS" "missing" none _).2.2 (by decide)

/-- C9 counterexample: when the persistence layer fails during a store
write, the code catches `sqlite3.Error`, prints a message and RETURNS
`False` — a normal return, not a raised error object carrying the cause;
the table is unchanged. -/
theorem C9_counterexample :
    store "ATLAS" "k" (Json.str "v") "team" none "T1" true
      [⟨"other", Json.str "x", "str", "team", "ATLAS", "T0", "T0", 0, none⟩] =
    .ok false [⟨"other", Json.str "x", "str", "team", "ATLAS", "T0", "T0", 0, none⟩] :=
  rfl

/-- C9 (amended): on an underlying persistence failure during the write,
`store` returns `False` to the caller (no exception is raised) and the
table is left in its prior state — the transaction is never committed, so
no partial write is visible. -/
theorem C9_store_failure (agent key : String) (value : Json) (scope : String)
    (metadata : Option Json) (now : String) (tbl : List Row)
    (hk : key ≠ "")
    (hs : scope = "agent" ∨ scope = "team" ∨ scope = "global") :
    store agent key value scope metadata now true tbl = .ok false tbl := by
  rcases hs with rfl | rfl | rfl <;> simp [store, hk]

/-- Witness for the amended C9 at a concrete input. -/
theorem C9_witness :
    store "ATLAS" "k" (Json.str "v") "team" none "T1" true [] = .ok false [] :=
  C9_store_failure "ATLAS" "k" (Json.str "v") "team" none "T1" []
    (by decide) (Or.inr (Or.inl rfl))

/-- C10: `store` persists falsy metadata (an empty dict, or any other
falsy value) as SQL NULL and truthy metadata as itself; consequently every
`search` or `list_all` result built from that row reports `metadata` as
`none` for falsy input — never as an empty mapping — and returns the
metadata unchanged exactly when it was truthy. -/
theorem C10_metadata_truthiness (agent key : String) (value : Json)
    (scope : String) (md : Json) (now : String) (tbl : List Row)
    (hk : key ≠ "")
    (hs : scope = "agent" ∨ scope = "team" ∨ scope = "global") :
    ∃ tbl', store agent key value scope (some md) now false tbl = .ok true tbl' ∧
      (∀ r ∈ tbl', r.key = storeKey agent key scope →
        r.metadata = if truthy md then some md else none) ∧
      (∀ q sc m, m ∈ search q sc tbl' → m.key = storeKey agent key scope →
        m.metadata = if truthy md then some md else none) ∧
      (∀ sc ow m, m ∈ list_all sc ow tbl' → m.key = storeKey agent key scope →
        m.metadata = if truthy md then some md else none) := by
  have hmeta : storedMeta (some md) = if truthy md then some md else none := rfl
  have main : ∃ tbl',
      store agent key value scope (some md) now false tbl = .ok true tbl' ∧
      ∀ r ∈ tbl', r.key = storeKey agent key scope →
        r.metadata = storedMeta (some md) := by
    cases hfind : tbl.find? (fun x => x.key = storeKey agent key scope) with
    | some r =>
      obtain ⟨h1, _⟩ :=
        store_found agent key value scope (some md) now tbl r hk hs hfind
      refine ⟨_, h1, ?_⟩
      intro r' hr' hkey
      obtain ⟨x, hx, hfx⟩ := List.mem_map.mp hr'
      by_cases hxk : x.key = storeKey agent key scope
      · rw [if_pos hxk] at hfx
        rw [← hfx]
      · rw [if_neg hxk] at hfx
        rw [← hfx] at hkey
        exact absurd hkey hxk
    | none =>
      have h1 := store_fresh agent key value scope (some md) now tbl hk hs hfind
      refine ⟨_, h1, ?_⟩
      intro r' hr' hkey
      rcases List.mem_append.mp hr' with h | h
      · exact absurd hkey (by simpa using List.find?_eq_none.mp hfind r' h)
      · have hdef : r' = ⟨storeKey agent key scope, value, typeName value,
            scope, agent, now, now, 0, storedMeta (some md)⟩ := by
          simpa using h
        rw [hdef]
  obtain ⟨tbl', h1, hmain⟩ := main
  refine ⟨tbl', h1, ?_, ?_, ?_⟩
  · intro r hr hkey
    rw [← hmeta]
    exact hmain r hr hkey
  · intro q sc m hm hkey
    obtain ⟨r, hr, hrm, _, _⟩ := (mem_search q sc tbl' m).mp hm
    rw [← hmeta, ← hrm]
    rw [← hrm] at hkey
    exact hmain r hr hkey
  · intro sc ow m hm hkey
    obtain ⟨r, hr, hrm, _, _⟩ := (mem_list_all sc ow tbl' m).mp hm
    rw [← hmeta, ← hrm]
    rw [← hrm] at hkey
    exact hmain r hr hkey

/-- Witness for C10 at a concrete input: an empty-dict metadata argument
is persisted as NULL. -/
theorem C10_witness :
    ∃ tbl', store "ATLAS" "cfg" (Json.str "v") "team" (some (Json.obj []))
        "T1" false [] = .ok true tbl' ∧
      ∀ r ∈ tbl', r.key = storeKey "ATLAS" "cfg" "team" → r.metadata = none := by
  obtain ⟨tbl', h1, h2, _, _⟩ :=
    C10_metadata_truthiness "ATLAS" "cfg" (Json.str "v") "team" (Json.obj [])
      "T1" [] (by decide) (Or.inr (Or.inl rfl))
  refine ⟨tbl', h1, ?_⟩
  intro r hr hk2
  have hres := h2 r hr hk2
  simpa [truthy] using hres

end MemoryBridge
